import Mathlib

/-!
Verification of `measure_shards_size.py` (influxdb-utils).

The Python source is shallowly embedded below.  Conventions of the embedding:

* Python strings are `List Char`; a line read from the remote stream is one
  such list.
* Python `int` values (byte counts, shard ids) are `Nat`; timestamps
  (`datetime` values obtained from `strptime`) are embedded as `Int`
  ordinals, since the code only ever compares them with `<` and `>`.
* A Python `dict` used as the shard-size index is a function
  `Nat → Option Nat`; assignment `d[k] = v` is `updateIdx`.
* Fallible code is `Option`: an uncaught Python exception that aborts the
  run is `none`.
* Floating point in `_size` (`math.log`, `math.pow`, `round`, `%s`
  rendering) is embedded with exact integer/rational arithmetic: the float
  double precision agrees with the exact values for all magnitudes the
  claims evaluate, and the idealisation is noted at each definition.
-/

/-- Python `\s` character class (`re` whitespace): space, tab, newline,
carriage return, vertical tab, form feed. -/
def pyIsSpace (c : Char) : Bool :=
  c = ' ' || c = '\t' || c = '\n' || c = '\r' || c = '\x0b' || c = '\x0c'

/-- Python `[0-9]` character class. -/
def pyIsDigit (c : Char) : Bool :=
  '0' ≤ c && c ≤ '9'

/-- Value of a decimal digit string, as `int(...)` computes it. -/
def digitsToNat (ds : List Char) : Nat :=
  ds.foldl (fun a c => a * 10 + (c.toNat - '0'.toNat)) 0

/-- The trailing part `.*/([0-9]+)` of the regex in `_parse_du`, applied to
the newline-free region the engine can reach: the greedy `.*` makes the
engine take the LAST occurrence of a slash followed by at least one digit,
and group 2 is the maximal digit run after that slash.  Returns that digit
run, or `none` when no such occurrence exists. -/
def lastSlashDigits : List Char → Option (List Char)
  | [] => none
  | c :: rest =>
    match lastSlashDigits rest with
    | some r => some r
    | none =>
      if c = '/' then
        let run := rest.takeWhile pyIsDigit
        if run.isEmpty then none else some run
      else none

/-- Embedding of `Client._parse_du` (src/measure_shards_size.py lines
97-108): `re.match` of `([0-9]+)\s+.*/([0-9]+)` against the line, returning
`(int(group 2), int(group 1))`, i.e. `(shard id, byte size)`.
Anchored matching with greedy groups resolves to: group 1 is the maximal
digit prefix of the line (which must be non-empty and followed by a
whitespace character); the engine then consumes the maximal whitespace run,
`.*` scans the following newline-free region, and group 2 is the digit run
after the last slash of that region that is followed by a digit.  When the
regex does not match, `r` is `None` and `r.group(2)` raises
`AttributeError`: embedded as `none`. -/
def parse_du (line : List Char) : Option (Nat × Nat) :=
  let ds := line.takeWhile pyIsDigit
  if ds.isEmpty then none
  else
    match line.dropWhile pyIsDigit with
    | [] => none
    | c :: _ =>
      if pyIsSpace c then
        let u := ((line.dropWhile pyIsDigit).dropWhile pyIsSpace).takeWhile
          (fun ch => ch ≠ '\n')
        match lastSlashDigits u with
        | none => none
        | some run => some (digitsToNat run, digitsToNat ds)
      else none

/-- Python dict assignment `d[shard_id] = size_bytes` on the size index. -/
def updateIdx (m : Nat → Option Nat) (i v : Nat) : Nat → Option Nat :=
  fun k => if k = i then some v else m k

/-- Embedding of the stdout loop of `Client._get_all_shards_size`
(src/measure_shards_size.py lines 131-134):

    for line in stdout.readlines():
        shard_id, size_bytes = self._parse_du(line)
        self.shards_size_list[shard_id] = size_bytes

There is no `try`/`except` around `_parse_du`, so the `AttributeError`
raised on an unparsable line propagates and aborts the whole collection:
embedded as `none`. -/
def collectSizes : List (List Char) → (Nat → Option Nat) → Option (Nat → Option Nat)
  | [], acc => some acc
  | line :: rest, acc =>
    match parse_du line with
    | none => none
    | some (i, v) => collectSizes rest (updateIdx acc i v)

/-- Applying a list of parsed `(id, size)` entries to an index in order,
later entries overwriting earlier ones (dict-assignment semantics). -/
def applyEntries (ps : List (Nat × Nat)) (m : Nat → Option Nat) : Nat → Option Nat :=
  ps.foldl (fun acc p => updateIdx acc p.1 p.2) m

/-- The tuple `size_name` of `Client._size`. -/
def sizeUnits : List String :=
  ["B", "KB", "MB", "GB", "TB", "PB", "EB", "ZB", "YB"]

/-- Exact value of `int(math.floor(math.log(b, 1024)))` for `b ≥ 1`:
the largest `i` with `1024 ^ i ≤ b`.  Fuel-based so that the kernel can
evaluate it; `logFloorAux_eq_log` identifies it with `Nat.log 1024`.
The float computation agrees with the exact value for every magnitude used
below (the relative error of double-precision `log` is far below the
distance to the nearest integer there). -/
def logFloorAux : Nat → Nat → Nat
  | 0, _ => 0
  | fuel + 1, b => if b < 1024 then 0 else logFloorAux fuel (b / 1024) + 1

/-- Exact value of `int(math.floor(math.log(b, 1024)))`. -/
def logFloor1024 (b : Nat) : Nat :=
  logFloorAux b b

/-- Exact value of `round(size_bytes / p, 2)`: the integer nearest to
`100 * num / den`, ties to even (Python banker rounding), so the result
represents the rounded value in hundredths. -/
def roundHalfEven2 (num den : Nat) : Nat :=
  let q := (100 * num) / den
  let r := (100 * num) % den
  if 2 * r < den then q
  else if den < 2 * r then q + 1
  else if q % 2 = 0 then q else q + 1

/-- Rendering of the rounded float `s` holding `k` hundredths by the
format `%s`: Python
renders a float with at least one fractional digit (`1.0`, `1.5`, `1.07`),
and the shortest round-trip repr of a two-decimal value of these
magnitudes is its decimal form without trailing zero digits. -/
def renderDec2 (k : Nat) : String :=
  let d := k / 100
  let m := k % 100
  if m = 0 then toString d ++ ".0"
  else if m % 10 = 0 then toString d ++ "." ++ toString (m / 10)
  else if m < 10 then toString d ++ ".0" ++ toString m
  else toString d ++ "." ++ toString m

/-- Embedding of `Client._size` (src/measure_shards_size.py lines 149-156).
For `size_bytes = 0` the string `0B`.  Otherwise `i` is the floor base-1024
logarithm and the code evaluates `size_name[i]`: a tuple index, which
raises `IndexError` when `i` is at least the tuple length 9 — embedded as
`none`.  Otherwise the value and the unit joined by a single space, as
the format `%s %s` renders them. -/
def pySize (size_bytes : Nat) : Option String :=
  if size_bytes = 0 then some "0B"
  else
    let i := logFloor1024 size_bytes
    match sizeUnits.get? i with
    | none => none
    | some unit => some (renderDec2 (roundHalfEven2 size_bytes (1024 ^ i)) ++ " " ++ unit)

/-- One row of the `SHOW SHARDS` result: the fields the code reads.
Timestamps (the parsed `start_time` and `end_time` strings) appear as their
`Int` ordinals, since the code only compares them. -/
structure ShardRec where
  id : Nat
  database : String
  start_time : Int
  end_time : Int

/-- One iteration of the inner loop of `Client.shards`
(src/measure_shards_size.py lines 201-215): a shard is discarded when its
start predates `from_date` or its end exceeds `to_date`; otherwise
`shard_size += self._get_shard_size(id)` where a missing id makes
`_get_shard_size` return `None`, so `+=` raises `TypeError`, which the
surrounding `try`/`except` absorbs (logging at debug level): the shard then
contributes 0. -/
def shardContribution (idx : Nat → Option Nat) (f t : Int) (s : ShardRec) : Nat :=
  if s.start_time < f then 0
  else if t < s.end_time then 0
  else
    match idx s.id with
    | some v => v
    | none => 0

/-- The full inner loop: `shard_size` accumulated over the group. -/
def sumShardSizes (g : List ShardRec) (f t : Int) (idx : Nat → Option Nat) : Nat :=
  g.foldl (fun acc s => acc + shardContribution idx f t s) 0

/-- Everything `Client.shards` prints, as data: the per-database lines in
emission order, each carrying the database name and the raw `shard_size`
handed to `print` (the line itself renders it through `_size`), the final
`total_size`, and whether the `TOTAL:` line is printed. -/
structure ShardsReport where
  perDb : List (String × Nat)
  grandTotal : Nat
  totalLine : Bool

/-- The value of the Python local `database` after the guarded
`database = group[0].get("database")` at the top of each loop iteration:
on an empty group the `IndexError` is absorbed and the local keeps its
previous value (`db`, which is `none` while still unbound); otherwise it
becomes the database name of the first record. -/
def groupDb (g : List ShardRec) (db : Option String) : Option String :=
  match g with
  | [] => db
  | s :: _ => some s.database

/-- Embedding of the group loop of `Client.shards`
(src/measure_shards_size.py lines 187-222).  The Python local `database` is
threaded as `db : Option String`, `none` meaning not yet bound: on an empty
group `group[0]` raises `IndexError`, which the `try`/`except ... pass`
absorbs, leaving `database` at its previous value (or unbound).  Reading an
unbound `database` — in the filter test `database != self.influx_db` or in
the `print` — raises `UnboundLocalError`, uncaught: the run aborts
(`none`).  A per-database line is printed when `args[--full] or
self.influx_db`; `total_size += shard_size` happens for every processed
group; the `TOTAL:` line is printed after the loop iff `self.influx_db` is
not set. -/
def processGroups (idx : Nat → Option Nat) (f t : Int) (influx : Option String)
    (full : Bool) :
    List (List ShardRec) → Option String → Nat → List (String × Nat) →
      Option ShardsReport
  | [], _, total, out => some ⟨out.reverse, total, influx.isNone⟩
  | g :: rest, db, total, out =>
    let db' := groupDb g db
    match influx with
    | some fdb =>
      match db' with
      | none => none
      | some d =>
        if d ≠ fdb then processGroups idx f t influx full rest db' total out
        else
          let sz := sumShardSizes g f t idx
          processGroups idx f t influx full rest db' (total + sz) ((d, sz) :: out)
    | none =>
      let sz := sumShardSizes g f t idx
      if full then
        match db' with
        | none => none
        | some d =>
          processGroups idx f t influx full rest db' (total + sz) ((d, sz) :: out)
      else processGroups idx f t influx full rest db' (total + sz) out

/-- Entry point of the `Client.shards` aggregation: the loop starts with unbound
`database`, `total_size = 0` and nothing printed. -/
def pyShardsCmd (groups : List (List ShardRec)) (idx : Nat → Option Nat)
    (f t : Int) (influx : Option String) (full : Bool) : Option ShardsReport :=
  processGroups idx f t influx full groups none 0 []

/-- Projection of the same loop: the `shard_size` of each group that is
actually processed (not skipped by the database filter), in order, with the
same `database`-local threading; `none` where the filter test itself would
read an unbound `database`. -/
def groupSizes (idx : Nat → Option Nat) (f t : Int) (influx : Option String) :
    List (List ShardRec) → Option String → Option (List Nat)
  | [], _ => some []
  | g :: rest, db =>
    let db' := groupDb g db
    match influx with
    | some fdb =>
      match db' with
      | none => none
      | some d =>
        if d ≠ fdb then groupSizes idx f t influx rest db'
        else (groupSizes idx f t influx rest db').map
          (fun l => sumShardSizes g f t idx :: l)
    | none =>
      (groupSizes idx f t influx rest db').map
        (fun l => sumShardSizes g f t idx :: l)

/-! ### Helper lemmas: the size formatter -/

theorem logFloorAux_eq_log : ∀ fuel b, b ≤ fuel → logFloorAux fuel b = Nat.log 1024 b := by
  intro fuel
  induction fuel with
  | zero =>
    intro b hb
    have hb0 : b = 0 := Nat.le_zero.mp hb
    subst hb0
    simp [logFloorAux, Nat.log_of_lt]
  | succ f ih =>
    intro b hb
    by_cases h : b < 1024
    · simp [logFloorAux, h, Nat.log_of_lt h]
    · push_neg at h
      have hlt : b / 1024 < b := Nat.div_lt_self (by omega) (by norm_num)
      have hf : b / 1024 ≤ f := by omega
      rw [show logFloorAux (f + 1) b = logFloorAux f (b / 1024) + 1 by
            simp [logFloorAux, Nat.not_lt.mpr h],
          ih (b / 1024) hf, Nat.log_of_one_lt_of_le (by norm_num) h]

theorem logFloor1024_eq_log (b : Nat) : logFloor1024 b = Nat.log 1024 b :=
  logFloorAux_eq_log b b le_rfl

theorem sizeUnits_length : sizeUnits.length = 9 := rfl

/-! ### C3: no clamp for huge magnitudes -/

/-- Claim C3 counterexample: at `2 ^ 91` bytes (which is at least
`1024 ^ 9`, so past the largest unit YB) the formatter does not return a
string: `size_name[i]` with `i = 9` raises `IndexError`.  The claim that it
clamps and returns a string is false at this input. -/
theorem pySize_2pow91_counterexample : pySize (2 ^ 91) = none := by decide

/-- Claim C3 (amended): the formatter does NOT clamp.  For byte counts
below `1024 ^ 9` the computed magnitude index is at most 8 and a string is
returned; for byte counts at or above `1024 ^ 9` the index is at least 9
and the tuple lookup `size_name[i]` raises `IndexError` (the call fails
rather than clamping to YB). -/
theorem pySize_no_clamp (b : Nat) :
    (1024 ^ 9 ≤ b → pySize b = none) ∧ (b < 1024 ^ 9 → (pySize b).isSome) := by
  constructor
  · intro h
    have hb : b ≠ 0 := by
      have : (0 : Nat) < 1024 ^ 9 := by positivity
      omega
    have h9 : 9 ≤ Nat.log 1024 b := (Nat.pow_le_iff_le_log (by norm_num) hb).1 h
    have hget : sizeUnits.get? (logFloor1024 b) = none := by
      rw [List.get?_eq_none, sizeUnits_length, logFloor1024_eq_log]
      exact h9
    simp only [pySize, if_neg hb, hget]
  · intro h
    by_cases hb : b = 0
    · subst hb; decide
    · have h9 : Nat.log 1024 b < 9 := (Nat.lt_pow_iff_log_lt (by norm_num) hb).1 h
      have hlen : logFloor1024 b < sizeUnits.length := by
        rw [sizeUnits_length, logFloor1024_eq_log]; exact h9
      obtain ⟨u, hu⟩ : ∃ u, sizeUnits.get? (logFloor1024 b) = some u := by
        cases hget : sizeUnits.get? (logFloor1024 b) with
        | none => exact absurd (List.get?_eq_none.mp hget) (by omega)
        | some u => exact ⟨u, rfl⟩
      simp only [pySize, if_neg hb, hu, Option.isSome_some]

/-- Witness for `pySize_no_clamp` at concrete inputs: `2 ^ 95` is past the
unit table and fails; `5` bytes is formatted. -/
theorem pySize_no_clamp_witness : pySize (2 ^ 95) = none ∧ (pySize 5).isSome :=
  ⟨(pySize_no_clamp (2 ^ 95)).1 (by decide),
   (pySize_no_clamp 5).2 (by decide)⟩

/-! ### C4: the reference values of the formatter -/

/-- Claim C4 counterexample: the code formats 1024 bytes as `1.0 KB`
(Python renders the rounded float `1.0` with its trailing `.0`), not as
`1 KB` as the claim states. -/
theorem pySize_1024_counterexample :
    pySize 1024 = some "1.0 KB" ∧ pySize 1024 ≠ some "1 KB" := by
  constructor
  · decide
  · decide

/-- Claim C4 (amended): `format(0) = "0B"`, `format(1024) = "1.0 KB"`,
`format(1536) = "1.5 KB"`, `format(1048576) = "1.0 MB"` — the whole-number
magnitudes carry the trailing `.0` of the Python float rendering.  In
general, for `0 < bytes < 1024 ^ 9`, the formatter picks the unit index `i`
with `1024 ^ i ≤ bytes < 1024 ^ (i + 1)`, divides by `1024 ^ i`, rounds to
2 decimal places (ties to even) and renders value and unit separated by a
single space. -/
theorem pySize_reference_values :
    pySize 0 = some "0B" ∧ pySize 1024 = some "1.0 KB" ∧
    pySize 1536 = some "1.5 KB" ∧ pySize 1048576 = some "1.0 MB" ∧
    ∀ b : Nat, 0 < b → b < 1024 ^ 9 →
      ∃ i, 1024 ^ i ≤ b ∧ b < 1024 ^ (i + 1) ∧
        pySize b =
          some (renderDec2 (roundHalfEven2 b (1024 ^ i)) ++ " " ++ sizeUnits.getD i "") := by
  refine ⟨by decide, by decide, by decide, by decide, ?_⟩
  intro b hb0 hbnd
  have hb : b ≠ 0 := by omega
  refine ⟨Nat.log 1024 b, Nat.pow_log_le_self 1024 hb, Nat.lt_pow_succ_log_self (by norm_num) b, ?_⟩
  have h9 : Nat.log 1024 b < 9 := (Nat.lt_pow_iff_log_lt (by norm_num) hb).1 hbnd
  have hlen : Nat.log 1024 b < sizeUnits.length := by rw [sizeUnits_length]; exact h9
  obtain ⟨u, hu⟩ : ∃ u, sizeUnits.get? (Nat.log 1024 b) = some u := by
    cases hget : sizeUnits.get? (Nat.log 1024 b) with
    | none => exact absurd (List.get?_eq_none.mp hget) (by omega)
    | some u => exact ⟨u, rfl⟩
  have hgetD : sizeUnits.getD (Nat.log 1024 b) "" = u := by
    rw [List.getD_eq_getElem?_getD, ← List.get?_eq_getElem?, hu]; rfl
  simp only [pySize, if_neg hb, logFloor1024_eq_log, hu, hgetD]

/-- Witness for `pySize_reference_values` at the concrete input 1100:
1100 bytes lies in the KB band and is formatted by dividing by 1024 and
rounding to two decimals. -/
theorem pySize_reference_values_witness :
    ∃ i, 1024 ^ i ≤ 1100 ∧ 1100 < 1024 ^ (i + 1) ∧
      pySize 1100 =
        some (renderDec2 (roundHalfEven2 1100 (1024 ^ i)) ++ " " ++ sizeUnits.getD i "") :=
  pySize_reference_values.2.2.2.2 1100 (by decide) (by decide)

/-! ### Helper lemmas: the remote-output collector -/

theorem collectSizes_none_of_bad :
    ∀ (lines : List (List Char)) (acc : Nat → Option Nat),
      (∃ l ∈ lines, parse_du l = none) → collectSizes lines acc = none := by
  intro lines
  induction lines with
  | nil => intro acc h; obtain ⟨l, hl, _⟩ := h; exact absurd hl (List.not_mem_nil l)
  | cons l rest ih =>
    intro acc h
    cases hp : parse_du l with
    | none => simp [collectSizes, hp]
    | some pv =>
      obtain ⟨l', hl', hbad⟩ := h
      rcases List.mem_cons.mp hl' with h1 | h2
      · subst h1; exact absurd hp (by rw [hbad]; simp)
      · simp only [collectSizes, hp]
        exact ih (updateIdx acc pv.1 pv.2) ⟨l', h2, hbad⟩

theorem collectSizes_mapM :
    ∀ (lines : List (List Char)) (ps : List (Nat × Nat)) (acc : Nat → Option Nat),
      lines.mapM parse_du = some ps →
      collectSizes lines acc = some (applyEntries ps acc) := by
  intro lines
  induction lines with
  | nil =>
    intro ps acc h
    simp only [List.mapM_nil, pure, Option.some.injEq] at h
    subst h; rfl
  | cons l rest ih =>
    intro ps acc h
    rw [List.mapM_cons] at h
    cases hp : parse_du l with
    | none => rw [hp] at h; simp at h
    | some pv =>
      rw [hp] at h
      cases hr : rest.mapM parse_du with
      | none => rw [hr] at h; simp at h
      | some qs =>
        rw [hr] at h
        simp only [Option.bind_eq_bind, Option.some_bind, pure, Option.some.injEq] at h
        subst h
        simp only [collectSizes, hp]
        rw [ih qs (updateIdx acc pv.1 pv.2) hr]
        rfl

theorem applyEntries_lookup :
    ∀ (ps : List (Nat × Nat)) (acc : Nat → Option Nat) (k : Nat),
      applyEntries ps acc k =
        (match ps.reverse.find? (fun p => p.1 == k) with
         | some p => some p.2
         | none => acc k) := by
  intro ps
  induction ps with
  | nil => intro acc k; rfl
  | cons p ps ih =>
    intro acc k
    have hstep : applyEntries (p :: ps) acc = applyEntries ps (updateIdx acc p.1 p.2) := rfl
    rw [hstep, ih]
    simp only [List.reverse_cons, List.find?_append]
    cases hfind : ps.reverse.find? (fun q => q.1 == k) with
    | some q => rfl
    | none =>
      simp only [Option.none_or]
      by_cases hk : p.1 = k
      · have hkb : (p.1 == k) = true := by simp [hk]
        simp [List.find?, hkb, updateIdx, hk.symm]
      · have hkb : (p.1 == k) = false := by simp [hk]
        have hk' : ¬ k = p.1 := fun hkk => hk hkk.symm
        simp [List.find?, hkb, updateIdx, hk']

/-! ### C1: malformed remote-output lines -/

/-- Claim C1 counterexample: `5\t/a/7` is a well-formed line parsing to
shard 7 with 5 bytes, yet collecting a stream that also contains the
malformed line `du: cannot read directory` does not return the index built
from the well-formed lines — the uncaught `AttributeError` from
`_parse_du` aborts the whole collection. -/
theorem collect_skip_counterexample :
    parse_du (String.toList "5\t/a/7") = some (7, 5) ∧
    collectSizes
      [String.toList "du: cannot read directory", String.toList "5\t/a/7"]
      (fun _ => none) = none :=
  ⟨by decide, rfl⟩

/-- Claim C1 (amended): parsing a line that does not match the expected
shape fails, but the collector does NOT skip it: the failure propagates and
the whole collection aborts as soon as any malformed line is present; the
size index is returned only when every line of the stream parses, and then
it is built from all of them in order. -/
theorem collect_aborts_on_malformed (lines : List (List Char)) (acc : Nat → Option Nat) :
    ((∃ l ∈ lines, parse_du l = none) → collectSizes lines acc = none) ∧
    (∀ ps, lines.mapM parse_du = some ps →
      collectSizes lines acc = some (applyEntries ps acc)) :=
  ⟨collectSizes_none_of_bad lines acc, fun ps h => collectSizes_mapM lines ps acc h⟩

/-- Witness for `collect_aborts_on_malformed`: the stream with the
malformed line aborts; the stream of well-formed lines alone yields the
index. -/
theorem collect_aborts_on_malformed_witness :
    collectSizes
      [String.toList "du: cannot read directory", String.toList "5\t/a/7"]
      (fun _ => some 0) = none ∧
    collectSizes [String.toList "5\t/a/7"] (fun _ => some 0) =
      some (applyEntries [(7, 5)] (fun _ => some 0)) :=
  ⟨(collect_aborts_on_malformed _ _).1
     ⟨String.toList "du: cannot read directory", by simp, by decide⟩,
   (collect_aborts_on_malformed _ _).2 [(7, 5)] (by decide)⟩

/-! ### C9: later duplicate lines overwrite earlier ones -/

/-- Claim C9: when every line of the stream parses, collection succeeds and
the resulting index maps a shard id to the byte size of the LAST line in
stream order that reports it (dict assignment overwrites; nothing is
summed), falling back to the initial index for ids no line reports. -/
theorem collect_last_line_wins (lines : List (List Char)) (ps : List (Nat × Nat))
    (acc : Nat → Option Nat) (k : Nat) (h : lines.mapM parse_du = some ps) :
    ∃ m, collectSizes lines acc = some m ∧
      m k = (match ps.reverse.find? (fun p => p.1 == k) with
             | some p => some p.2
             | none => acc k) :=
  ⟨applyEntries ps acc, collectSizes_mapM lines ps acc h, applyEntries_lookup ps acc k⟩

/-- Witness for `collect_last_line_wins`: two well-formed lines both report
shard 7, first with 3 bytes then with 4; the index maps 7 to 4. -/
theorem collect_last_line_wins_witness :
    ∃ m, collectSizes [String.toList "3 /a/7", String.toList "4 /b/7"]
        (fun _ => none) = some m ∧ m 7 = some 4 := by
  have h := collect_last_line_wins
    [String.toList "3 /a/7", String.toList "4 /b/7"] [(7, 3), (7, 4)]
    (fun _ => none) 7 (by decide)
  simpa using h

/-! ### Helper lemmas: trailing characters after a well-formed line -/

theorem takeWhile_eq_nil_of_neg {α : Type} {p : α → Bool} :
    ∀ l : List α, (∀ c ∈ l, p c = false) → l.takeWhile p = []
  | [], _ => rfl
  | c :: rest, h => by
    simp [List.takeWhile_cons, h c (List.mem_cons_self c rest)]

theorem takeWhile_append_of_none {α : Type} {p : α → Bool} (l T : List α)
    (hT : ∀ c ∈ T, p c = false) : (l ++ T).takeWhile p = l.takeWhile p := by
  rw [List.takeWhile_append]
  by_cases hlen : (l.takeWhile p).length = l.length
  · rw [if_pos hlen, takeWhile_eq_nil_of_neg T hT, List.append_nil]
    exact ((List.takeWhile_sublist p).eq_of_length hlen).symm
  · rw [if_neg hlen]

theorem lastSlashDigits_none_of_nondigit :
    ∀ T : List Char, (∀ c ∈ T, pyIsDigit c = false) → lastSlashDigits T = none := by
  intro T
  induction T with
  | nil => intro _; rfl
  | cons c rest ih =>
    intro h
    have hrest : lastSlashDigits rest = none :=
      ih fun d hd => h d (List.mem_cons_of_mem c hd)
    have hrun : rest.takeWhile pyIsDigit = [] :=
      takeWhile_eq_nil_of_neg rest fun d hd => h d (List.mem_cons_of_mem c hd)
    simp [lastSlashDigits, hrest, hrun]

theorem lastSlashDigits_append_nondigit (T : List Char)
    (hT : ∀ c ∈ T, pyIsDigit c = false) :
    ∀ u : List Char, lastSlashDigits (u ++ T) = lastSlashDigits u := by
  intro u
  induction u with
  | nil => simpa using lastSlashDigits_none_of_nondigit T hT
  | cons c u' ih =>
    show lastSlashDigits (c :: (u' ++ T)) = lastSlashDigits (c :: u')
    simp only [lastSlashDigits, ih]
    cases h : lastSlashDigits u' with
    | some r => rfl
    | none => rw [takeWhile_append_of_none u' T hT]

theorem lastSlashDigits_takeWhile_append (w T : List Char)
    (hT : ∀ c ∈ T, pyIsDigit c = false) :
    lastSlashDigits ((w ++ T).takeWhile (fun ch => ch ≠ '\n')) =
      lastSlashDigits (w.takeWhile (fun ch => ch ≠ '\n')) := by
  rw [List.takeWhile_append]
  by_cases hlen : (w.takeWhile (fun ch => decide (ch ≠ '\n'))).length = w.length
  · rw [if_pos hlen]
    have hw : w.takeWhile (fun ch => decide (ch ≠ '\n')) = w :=
      (List.takeWhile_sublist _).eq_of_length hlen
    rw [hw]
    exact lastSlashDigits_append_nondigit _
      (fun c hc => hT c ((List.takeWhile_sublist _).subset hc)) w
  · rw [if_neg hlen]

/-- Appending non-digit characters to a line whose digit prefix and
whitespace separator are both present does not change what the regex of
`_parse_du` matches. -/
theorem parse_du_append (L T : List Char) (hT : ∀ c ∈ T, pyIsDigit c = false)
    (h1 : L.dropWhile pyIsDigit ≠ [])
    (h2 : (L.dropWhile pyIsDigit).dropWhile pyIsSpace ≠ []) :
    parse_du (L ++ T) = parse_du L := by
  obtain ⟨c, cs, heq⟩ : ∃ c cs, L.dropWhile pyIsDigit = c :: cs := by
    cases hcase : L.dropWhile pyIsDigit with
    | nil => exact absurd hcase h1
    | cons c cs => exact ⟨c, cs, rfl⟩
  have hlen : ¬ (L.takeWhile pyIsDigit).length = L.length := by
    have hsum := congrArg List.length (List.takeWhile_append_dropWhile pyIsDigit L)
    rw [List.length_append, heq, List.length_cons] at hsum
    omega
  have tw : (L ++ T).takeWhile pyIsDigit = L.takeWhile pyIsDigit := by
    rw [List.takeWhile_append, if_neg hlen]
  have dw : (L ++ T).dropWhile pyIsDigit = c :: (cs ++ T) := by
    rw [List.dropWhile_append, if_neg (by simp [heq]), heq]
    rfl
  have hw2 : (c :: cs).dropWhile pyIsSpace ≠ [] := by
    rw [← heq]; exact h2
  have dw2 : (c :: (cs ++ T)).dropWhile pyIsSpace =
      (c :: cs).dropWhile pyIsSpace ++ T := by
    rw [show (c :: (cs ++ T)) = (c :: cs) ++ T from rfl,
        List.dropWhile_append, if_neg (by simp [hw2])]
  have key : lastSlashDigits (((c :: (cs ++ T)).dropWhile pyIsSpace).takeWhile
        (fun ch => ch ≠ '\n')) =
      lastSlashDigits (((c :: cs).dropWhile pyIsSpace).takeWhile
        (fun ch => ch ≠ '\n')) := by
    rw [dw2]
    exact lastSlashDigits_takeWhile_append _ T hT
  simp only [parse_du, tw, dw, heq, key]

/-! ### C10: trailing non-digit characters are tolerated -/

/-- Claim C10: a line that parses successfully still parses to the same
(shard id, byte size) pair after arbitrary trailing non-digit characters
(for example the carriage return and newline a pty appends) are appended;
the regex match is unanchored on the right. -/
theorem parse_du_ignores_trailing (L T : List Char) (q : Nat × Nat)
    (hL : parse_du L = some q) (hT : ∀ c ∈ T, pyIsDigit c = false) :
    parse_du (L ++ T) = some q := by
  have h1 : L.dropWhile pyIsDigit ≠ [] := by
    intro hnil
    rw [parse_du] at hL
    rw [hnil] at hL
    simp at hL
  have h2 : (L.dropWhile pyIsDigit).dropWhile pyIsSpace ≠ [] := by
    intro hnil
    rw [parse_du] at hL
    rw [hnil] at hL
    cases hdw : L.dropWhile pyIsDigit with
    | nil => rw [hdw] at hL; simp at hL
    | cons c cs =>
      rw [hdw] at hL
      simp only [List.takeWhile_nil] at hL
      simp [lastSlashDigits] at hL
  rw [parse_du_append L T hT h1 h2, hL]

/-- Witness for `parse_du_ignores_trailing`: the documented example line
with a trailing carriage return and newline still parses to
`(1939, 23248)`. -/
theorem parse_du_ignores_trailing_witness :
    parse_du (String.toList "23248\t/opt/influxdb/data/ddbb/default/1939" ++
      String.toList "\r\n") = some (1939, 23248) :=
  parse_du_ignores_trailing _ _ _ (by decide) (by decide)

/-! ### Helper lemmas: the inner shard loop -/

theorem shardContribution_eq (idx : Nat → Option Nat) (f t : Int) (s : ShardRec) :
    shardContribution idx f t s =
      if f ≤ s.start_time ∧ s.end_time ≤ t then (idx s.id).getD 0 else 0 := by
  unfold shardContribution
  by_cases h1 : s.start_time < f
  · rw [if_pos h1, if_neg (by omega)]
  · rw [if_neg h1]
    by_cases h2 : t < s.end_time
    · rw [if_pos h2, if_neg (by omega)]
    · rw [if_neg h2, if_pos (by constructor <;> omega)]
      cases idx s.id <;> rfl

theorem foldl_add_shardContribution (idx : Nat → Option Nat) (f t : Int) :
    ∀ (g : List ShardRec) (n : Nat),
      g.foldl (fun acc s => acc + shardContribution idx f t s) n =
        n + (g.map (shardContribution idx f t)).sum := by
  intro g
  induction g with
  | nil => intro n; simp
  | cons s g ih =>
    intro n
    rw [List.foldl_cons, ih, List.map_cons, List.sum_cons]
    omega

theorem sumShardSizes_eq_map_sum (g : List ShardRec) (f t : Int)
    (idx : Nat → Option Nat) :
    sumShardSizes g f t idx = (g.map (shardContribution idx f t)).sum := by
  simpa using foldl_add_shardContribution idx f t g 0

theorem sumShardSizes_eq_filter (g : List ShardRec) (f t : Int)
    (idx : Nat → Option Nat) :
    sumShardSizes g f t idx =
      ((g.filter (fun s => decide (f ≤ s.start_time ∧ s.end_time ≤ t))).map
        (fun s => (idx s.id).getD 0)).sum := by
  rw [sumShardSizes_eq_map_sum]
  induction g with
  | nil => rfl
  | cons s g ih =>
    rw [List.map_cons, List.sum_cons, ih, List.filter_cons]
    by_cases h : f ≤ s.start_time ∧ s.end_time ≤ t
    · rw [if_pos (decide_eq_true h), List.map_cons, List.sum_cons,
        shardContribution_eq, if_pos h]
    · rw [if_neg (by simpa using h), shardContribution_eq, if_neg h, Nat.zero_add]

/-! ### C6: the time-window containment filter -/

/-- Claim C6: a shard contributes to its database total iff it is fully
contained in the window, inclusive at both ends: the ones with
`start_time < from` or `to < end_time` contribute 0, and each fully
contained shard (including one whose window exactly equals the filter
window) contributes its looked-up size exactly once. -/
theorem shard_window_containment (g : List ShardRec) (f t : Int)
    (idx : Nat → Option Nat) :
    (∀ s : ShardRec, shardContribution idx f t s =
      if f ≤ s.start_time ∧ s.end_time ≤ t then (idx s.id).getD 0 else 0) ∧
    sumShardSizes g f t idx =
      ((g.filter (fun s => decide (f ≤ s.start_time ∧ s.end_time ≤ t))).map
        (fun s => (idx s.id).getD 0)).sum :=
  ⟨fun s => shardContribution_eq idx f t s, sumShardSizes_eq_filter g f t idx⟩

/-! ### Helper lemmas: the group loop -/

theorem processGroups_congr_group (idx : Nat → Option Nat) (f t : Int)
    (influx : Option String) (full : Bool) (g g' : List ShardRec)
    (hhead : ∀ db : Option String, groupDb g db = groupDb g' db)
    (hsz : sumShardSizes g f t idx = sumShardSizes g' f t idx) :
    ∀ (gs1 gs2 : List (List ShardRec)) (db : Option String) (total : Nat)
      (out : List (String × Nat)),
      processGroups idx f t influx full (gs1 ++ g :: gs2) db total out =
        processGroups idx f t influx full (gs1 ++ g' :: gs2) db total out := by
  intro gs1
  induction gs1 with
  | nil =>
    intro gs2 db total out
    simp only [List.nil_append, processGroups, hhead db, hsz]
  | cons g0 gs1 ih =>
    intro gs2 db total out
    simp only [List.cons_append, processGroups]
    cases influx with
    | some fdb =>
      cases groupDb g0 db with
      | none => rfl
      | some d =>
        dsimp only
        by_cases hd : d ≠ fdb
        · rw [if_pos hd, if_pos hd]; exact ih gs2 _ _ _
        · rw [if_neg hd, if_neg hd]; exact ih gs2 _ _ _
    | none =>
      cases full with
      | true =>
        cases groupDb g0 db with
        | none => rfl
        | some d => dsimp only; exact ih gs2 _ _ _
      | false => dsimp only; exact ih gs2 _ _ _

/-! ### C7: shard ids absent from the size index -/

/-- Claim C7: a shard that passes the time-window filter but whose id is
absent from the size index contributes exactly 0: its individual
contribution is 0 (the `TypeError` from `+= None` is caught, a debug
diagnostic is logged and the loop continues), the group total is the same
as if the shard were not there, and so is the whole report, grand total
included. -/
theorem missing_shard_contributes_zero (gs1 gs2 : List (List ShardRec))
    (h0 : ShardRec) (g1 g2 : List ShardRec) (s : ShardRec) (f t : Int)
    (idx : Nat → Option Nat) (influx : Option String) (full : Bool)
    (habs : idx s.id = none) (hwin : f ≤ s.start_time ∧ s.end_time ≤ t) :
    shardContribution idx f t s = 0 ∧
    sumShardSizes (g1 ++ s :: g2) f t idx = sumShardSizes (g1 ++ g2) f t idx ∧
    pyShardsCmd (gs1 ++ (h0 :: (g1 ++ s :: g2)) :: gs2) idx f t influx full =
      pyShardsCmd (gs1 ++ (h0 :: (g1 ++ g2)) :: gs2) idx f t influx full := by
  have hc : shardContribution idx f t s = 0 := by
    rw [shardContribution_eq, if_pos hwin, habs]; rfl
  have hsum : ∀ ga gb : List ShardRec,
      sumShardSizes (ga ++ s :: gb) f t idx = sumShardSizes (ga ++ gb) f t idx := by
    intro ga gb
    rw [sumShardSizes_eq_map_sum, sumShardSizes_eq_map_sum, List.map_append,
      List.map_append, List.map_cons, List.sum_append, List.sum_append,
      List.sum_cons, hc, Nat.zero_add]
  refine ⟨hc, hsum g1 g2, ?_⟩
  exact processGroups_congr_group idx f t influx full (h0 :: (g1 ++ s :: g2))
    (h0 :: (g1 ++ g2)) (fun db => rfl) (hsum (h0 :: g1) g2) gs1 gs2 none 0 []

/-- Witness for `missing_shard_contributes_zero`: shard 9 is inside the
window but absent from an index that only knows shard 1; it contributes 0
and the report is unchanged. -/
theorem missing_shard_contributes_zero_witness :
    shardContribution (fun i => if i = 1 then some 5 else none) 0 0 ⟨9, "a", 0, 0⟩ = 0 ∧
    sumShardSizes ([] ++ ⟨9, "a", 0, 0⟩ :: []) 0 0
        (fun i => if i = 1 then some 5 else none) =
      sumShardSizes ([] ++ []) 0 0 (fun i => if i = 1 then some 5 else none) ∧
    pyShardsCmd ([] ++ (⟨1, "a", 0, 0⟩ :: ([] ++ ⟨9, "a", 0, 0⟩ :: [])) :: [])
        (fun i => if i = 1 then some 5 else none) 0 0 none true =
      pyShardsCmd ([] ++ (⟨1, "a", 0, 0⟩ :: ([] ++ [])) :: [])
        (fun i => if i = 1 then some 5 else none) 0 0 none true :=
  missing_shard_contributes_zero [] [] ⟨1, "a", 0, 0⟩ [] [] ⟨9, "a", 0, 0⟩ 0 0
    (fun i => if i = 1 then some 5 else none) none true rfl (by decide)


theorem processGroups_groupSizes (idx : Nat → Option Nat) (f t : Int)
    (influx : Option String) (full : Bool) :
    ∀ (groups : List (List ShardRec)) (db : Option String) (total : Nat)
      (out : List (String × Nat)) (r : ShardsReport),
      processGroups idx f t influx full groups db total out = some r →
      ∃ l, groupSizes idx f t influx groups db = some l ∧
        r.grandTotal = total + l.sum ∧
        r.perDb.map Prod.snd =
          (out.reverse.map Prod.snd) ++ (if full || influx.isSome then l else []) ∧
        r.totalLine = influx.isNone := by
  intro groups
  induction groups with
  | nil =>
    intro db total out r h
    simp only [processGroups, Option.some.injEq] at h
    subst h
    exact ⟨[], rfl, by simp, by simp, rfl⟩
  | cons g rest ih =>
    intro db total out r h
    simp only [processGroups] at h
    simp only [groupSizes]
    cases influx with
    | some fdb =>
      cases hdb : groupDb g db with
      | none => rw [hdb] at h; simp at h
      | some d =>
        rw [hdb] at h
        dsimp only at h ⊢
        by_cases hd : d ≠ fdb
        · rw [if_pos hd] at h
          rw [if_pos hd]
          exact ih (some d) total out r h
        · rw [if_neg hd] at h
          rw [if_neg hd]
          obtain ⟨l, h1, h2, h3, h4⟩ :=
            ih (some d) (total + sumShardSizes g f t idx)
              ((d, sumShardSizes g f t idx) :: out) r h
          refine ⟨sumShardSizes g f t idx :: l, ?_, ?_, ?_, h4⟩
          · rw [h1]; rfl
          · rw [h2, List.sum_cons]; omega
          · rw [h3]
            simp [List.reverse_cons, List.map_append, List.append_assoc]
    | none =>
      cases full with
      | true =>
        cases hdb : groupDb g db with
        | none => rw [hdb] at h; simp at h
        | some d =>
          rw [hdb] at h
          dsimp only at h ⊢
          obtain ⟨l, h1, h2, h3, h4⟩ :=
            ih (some d) (total + sumShardSizes g f t idx)
              ((d, sumShardSizes g f t idx) :: out) r h
          refine ⟨sumShardSizes g f t idx :: l, ?_, ?_, ?_, h4⟩
          · rw [h1]; rfl
          · rw [h2, List.sum_cons]; omega
          · rw [h3]
            simp [List.reverse_cons, List.map_append, List.append_assoc]
      | false =>
        dsimp only at h ⊢
        obtain ⟨l, h1, h2, h3, h4⟩ :=
          ih (groupDb g db) (total + sumShardSizes g f t idx) out r h
        refine ⟨sumShardSizes g f t idx :: l, ?_, ?_, ?_, h4⟩
        · rw [h1]; rfl
        · rw [h2, List.sum_cons]; omega
        · rw [h3]; simp

/-! ### C8: emission rules and accumulation -/

/-- Claim C8: whenever the group loop completes without raising, the
processed groups are exactly those of `groupSizes`; a per-database line is
emitted for each processed group iff `--full` is set or a database filter
is set (otherwise no per-database line at all), the grand total always
accumulates every processed group regardless of emission, and the final
`TOTAL:` line is printed iff no database filter was set. -/
theorem emission_and_accumulation (groups : List (List ShardRec))
    (idx : Nat → Option Nat) (f t : Int) (influx : Option String) (full : Bool)
    (r : ShardsReport) (h : pyShardsCmd groups idx f t influx full = some r) :
    ∃ l, groupSizes idx f t influx groups none = some l ∧
      r.grandTotal = l.sum ∧
      r.perDb.map Prod.snd = (if full || influx.isSome then l else []) ∧
      r.totalLine = influx.isNone := by
  obtain ⟨l, h1, h2, h3, h4⟩ :=
    processGroups_groupSizes idx f t influx full groups none 0 [] r h
  exact ⟨l, h1, by simpa using h2, by simpa using h3, h4⟩

/-- Witness for `emission_and_accumulation`: one group of one shard with a
filter set to its database; the line is emitted, the grand total matches,
and no TOTAL line is printed. -/
theorem emission_and_accumulation_witness :
    ∃ l, groupSizes (fun i => if i = 1 then some 5 else none) 0 0 (some "a")
        [[⟨1, "a", 0, 0⟩]] none = some l ∧
      (5 : Nat) = l.sum ∧
      ([("a", 5)] : List (String × Nat)).map Prod.snd =
        (if false || (some "a").isSome then l else []) ∧
      (false : Bool) = (Option.some "a").isNone := by
  have h := emission_and_accumulation [[⟨1, "a", 0, 0⟩]]
    (fun i => if i = 1 then some 5 else none) 0 0 (some "a") false
    ⟨[("a", 5)], 5, false⟩ rfl
  simpa using h

/-! ### C5: sum of emitted lines versus grand total -/

/-- Claim C5 counterexample: with no database filter and `--full` not set,
no per-database line is emitted at all, so the sum over emitted
per-database lines is 0 while the grand total of the same run is 5. -/
theorem perdb_sum_counterexample :
    pyShardsCmd [[⟨1, "a", 0, 0⟩]] (fun i => if i = 1 then some 5 else none)
      0 0 none false = some ⟨[], 5, true⟩ ∧
    (([] : List (String × Nat)).map Prod.snd).sum ≠ 5 :=
  ⟨rfl, by decide⟩

/-- Claim C5 (amended): with no database filter set AND `--full` set (so
that per-database lines are actually emitted), the sum of the raw byte
totals carried by the emitted per-database lines equals the grand total.
With `--full` unset no per-database line is emitted at all. -/
theorem perdb_sum_eq_grand_total (groups : List (List ShardRec))
    (idx : Nat → Option Nat) (f t : Int) (r : ShardsReport)
    (h : pyShardsCmd groups idx f t none true = some r) :
    (r.perDb.map Prod.snd).sum = r.grandTotal := by
  obtain ⟨l, h1, h2, h3, h4⟩ :=
    processGroups_groupSizes idx f t none true groups none 0 [] r h
  rw [h3, h2]
  simp

/-- Witness for `perdb_sum_eq_grand_total`: two databases, full output; the
two emitted lines sum to the grand total. -/
theorem perdb_sum_eq_grand_total_witness :
    ((⟨[("a", 5), ("b", 7)], 12, true⟩ : ShardsReport).perDb.map Prod.snd).sum =
      (⟨[("a", 5), ("b", 7)], 12, true⟩ : ShardsReport).grandTotal :=
  perdb_sum_eq_grand_total [[⟨1, "a", 0, 0⟩], [⟨2, "b", 0, 0⟩]]
    (fun i => if i = 1 then some 5 else if i = 2 then some 7 else none) 0 0
    ⟨[("a", 5), ("b", 7)], 12, true⟩ rfl

/-! ### C2: empty metadata groups -/

/-- Claim C2 counterexample: an empty group is not silently skipped.  With
`--full` set, a run whose only group is empty aborts (`UnboundLocalError`
reading the never-assigned `database` local); and after a non-empty group,
an empty group emits an extra per-database line that reuses the previous
group name `a` with size 0, so other results do not stay unchanged. -/
theorem empty_group_counterexample :
    pyShardsCmd [[]] (fun _ => none) 0 0 none true = none ∧
    pyShardsCmd [[⟨1, "a", 0, 0⟩], []] (fun i => if i = 1 then some 5 else none)
      0 0 none true = some ⟨[("a", 5), ("a", 0)], 5, true⟩ :=
  ⟨rfl, rfl⟩

theorem processGroups_insert_empty (idx : Nat → Option Nat) (f t : Int) :
    ∀ (gs1 gs2 : List (List ShardRec)) (db : Option String) (total : Nat)
      (out : List (String × Nat)),
      processGroups idx f t none false (gs1 ++ [] :: gs2) db total out =
        processGroups idx f t none false (gs1 ++ gs2) db total out := by
  intro gs1
  induction gs1 with
  | nil => intro gs2 db total out; rfl
  | cons g0 gs1 ih =>
    intro gs2 db total out
    simp only [List.cons_append, processGroups]
    exact ih gs2 (groupDb g0 db) _ _

/-- Claim C2 (amended): an empty group never aborts the inner loop and
contributes 0 to the grand total, and when neither `--full` nor a database
filter is set it is indeed skipped without any effect: inserting an empty
group anywhere leaves the whole report unchanged.  But it is not skipped
when lines are printed: the `database` local keeps its previous value, so
with `--full` set a leading empty group makes the run raise
`UnboundLocalError` (and a later empty group emits a spurious line with
the previous database name and size 0). -/
theorem empty_group_behaviour :
    (∀ (gs1 gs2 : List (List ShardRec)) (idx : Nat → Option Nat) (f t : Int),
      pyShardsCmd (gs1 ++ [] :: gs2) idx f t none false =
        pyShardsCmd (gs1 ++ gs2) idx f t none false) ∧
    (∀ (gs : List (List ShardRec)) (idx : Nat → Option Nat) (f t : Int)
        (influx : Option String),
      pyShardsCmd ([] :: gs) idx f t influx true = none) := by
  constructor
  · intro gs1 gs2 idx f t
    exact processGroups_insert_empty idx f t gs1 gs2 none 0 []
  · intro gs idx f t influx
    cases influx with
    | none => rfl
    | some fdb => rfl
